import Mathlib

/-!
# go-countries: the `GET /` handler of `main.go`

A shallow embedding of the request handler registered in `main` (lines 85-129 of
`main.go`) together with the parts of the Go standard library it calls:
`strings.ToLower`, `strings.Contains`, `url.Values.Get`, map lookup, and the
`http.ResponseWriter` calls `Header().Set`, `WriteHeader` and (through
`json.Encoder.Encode`) `Write`.

Go strings are byte sequences, so they are modelled as lists of bytes; a query
parameter arrives percent-decoded and may hold any bytes.  The case table of Go's
`unicode` package (`unicode.CaseRanges`) is not part of the repository and is taken
as a parameter `caseTable` giving the lower-case mapping of the non-ASCII runes.
-/

set_option autoImplicit false

namespace GoCountries

/-! ## Bytes, strings, UTF-8 -/

/-- A Go `byte`. -/
abbrev byte := Fin 256

/-- A Go `string`: an immutable sequence of bytes, not necessarily valid UTF-8. -/
abbrev GoString := List byte

/-- Go's conversion `byte(x)`: truncation to the low eight bits. -/
def toByte (n : Nat) : byte := ⟨n % 256, Nat.mod_lt n (by decide)⟩

/-- Constant `utf8.RuneError`, the replacement character U+FFFD. -/
def utf8.RuneError : Int := 0xFFFD

/-- Constant `utf8.RuneSelf`: bytes below it are single-byte runes. -/
def utf8.RuneSelf : Nat := 0x80

/-- Constant `utf8.MaxRune`. -/
def utf8.MaxRune : Nat := 0x10FFFF

/-- Constant `unicode.MaxASCII`. -/
def unicode.MaxASCII : Int := 0x7F

/-- An entry of the table `first` of package `utf8`: what a leading byte announces.
`as` is an ASCII byte, `xx` an invalid leading byte, `lead size lo hi` the start of
a `size`-byte sequence whose second byte must lie in `lo..hi`. -/
inductive utf8.FirstInfo where
  | as
  | xx
  | lead (size lo hi : Nat)
  deriving DecidableEq, Repr

/-- The table `first` (with `acceptRanges` folded in) of package `utf8`. -/
def utf8.first (b : byte) : utf8.FirstInfo :=
  if b.val < 0x80 then .as
  else if b.val < 0xC2 then .xx
  else if b.val < 0xE0 then .lead 2 0x80 0xBF
  else if b.val = 0xE0 then .lead 3 0xA0 0xBF
  else if b.val < 0xED then .lead 3 0x80 0xBF
  else if b.val = 0xED then .lead 3 0x80 0x9F
  else if b.val < 0xF0 then .lead 3 0x80 0xBF
  else if b.val = 0xF0 then .lead 4 0x90 0xBF
  else if b.val < 0xF4 then .lead 4 0x80 0xBF
  else if b.val = 0xF4 then .lead 4 0x80 0x8F
  else .xx

/-- Continuation-byte test `locb <= b && b <= hicb` of package `utf8`. -/
def utf8.isCont (b : byte) : Bool := 0x80 ≤ b.val && b.val ≤ 0xBF

/-- Function `utf8.DecodeRuneInString`: the first rune of `s` and its width in bytes;
`(RuneError, 0)` on the empty string and `(RuneError, 1)` on an invalid encoding. -/
def utf8.DecodeRuneInString : GoString → Int × Nat
  | [] => (utf8.RuneError, 0)
  | s0 :: rest =>
    match utf8.first s0 with
    | .as => ((s0.val : Int), 1)
    | .xx => (utf8.RuneError, 1)
    | .lead sz lo hi =>
      if rest.length + 1 < sz then (utf8.RuneError, 1)
      else
        match rest with
        | [] => (utf8.RuneError, 1)
        | s1 :: rest1 =>
          if s1.val < lo ∨ hi < s1.val then (utf8.RuneError, 1)
          else if sz ≤ 2 then
            ((((s0.val &&& 0x1F) <<< 6 ||| (s1.val &&& 0x3F) : Nat) : Int), 2)
          else
            match rest1 with
            | [] => (utf8.RuneError, 1)
            | s2 :: rest2 =>
              if !utf8.isCont s2 then (utf8.RuneError, 1)
              else if sz ≤ 3 then
                ((((s0.val &&& 0x0F) <<< 12 ||| (s1.val &&& 0x3F) <<< 6
                    ||| (s2.val &&& 0x3F) : Nat) : Int), 3)
              else
                match rest2 with
                | [] => (utf8.RuneError, 1)
                | s3 :: _ =>
                  if !utf8.isCont s3 then (utf8.RuneError, 1)
                  else
                    ((((s0.val &&& 0x07) <<< 18 ||| (s1.val &&& 0x3F) <<< 12
                        ||| (s2.val &&& 0x3F) <<< 6 ||| (s3.val &&& 0x3F) : Nat) : Int), 4)

/-- Function `utf8.AppendRune` on an empty buffer (also `Builder.WriteRune`): the
UTF-8 encoding of `r`; runes out of range and surrogates encode as U+FFFD. -/
def utf8.AppendRune (r : Int) : GoString :=
  let i : Nat := (r % 4294967296).toNat
  if i ≤ 0x7F then [toByte i]
  else if i ≤ 0x7FF then [toByte (0xC0 ||| (i >>> 6)), toByte (0x80 ||| (i &&& 0x3F))]
  else if utf8.MaxRune < i ∨ (0xD800 ≤ i ∧ i ≤ 0xDFFF) then [0xEF, 0xBF, 0xBD]
  else if i ≤ 0xFFFF then
    [toByte (0xE0 ||| (i >>> 12)), toByte (0x80 ||| ((i >>> 6) &&& 0x3F)),
     toByte (0x80 ||| (i &&& 0x3F))]
  else
    [toByte (0xF0 ||| (i >>> 18)), toByte (0x80 ||| ((i >>> 12) &&& 0x3F)),
     toByte (0x80 ||| ((i >>> 6) &&& 0x3F)), toByte (0x80 ||| (i &&& 0x3F))]

/-- A string literal of the Go source (source files are UTF-8). -/
def lit (s : String) : GoString := (s.toList.map (fun c => utf8.AppendRune (c.toNat : Int))).flatten

/-! ## Package `strings` -/

/-- The loop of `strings.Map`: `for i, c := range s` decodes one rune at the cursor
(an invalid byte yields `RuneError` and advances one byte), and every mapped rune
that is not negative is written with `WriteRune`.  `skip` counts the bytes of the
current rune that the cursor still has to pass.  Go copies the bytes of a valid
unchanged rune instead of re-encoding it, which gives the same bytes. -/
def strings.Map.go (mapping : Int → Int) : GoString → Nat → GoString
  | [], _ => []
  | _ :: rest, skip + 1 => strings.Map.go mapping rest skip
  | b :: rest, 0 =>
    let d := utf8.DecodeRuneInString (b :: rest)
    let r := mapping d.1
    (if 0 ≤ r then utf8.AppendRune r else []) ++ strings.Map.go mapping rest (d.2 - 1)

/-- Function `strings.Map`. -/
def strings.Map (mapping : Int → Int) (s : GoString) : GoString :=
  strings.Map.go mapping s 0

/-- Function `unicode.ToLower`: ASCII is handled in code, every other rune by the
case table of package `unicode`, here the parameter `caseTable`. -/
def unicode.ToLower (caseTable : Int → Int) (r : Int) : Int :=
  if r ≤ unicode.MaxASCII then
    if 65 ≤ r ∧ r ≤ 90 then r + 32 else r
  else caseTable r

/-- The scan `c >= utf8.RuneSelf` of `strings.ToLower`: no byte is 0x80 or above. -/
def strings.isASCII (s : GoString) : Bool := s.all (fun c => decide (c.val < utf8.RuneSelf))

/-- The test `'A' <= c && c <= 'Z'`. -/
def strings.isUpperByte (c : byte) : Bool := 65 ≤ c.val && c.val ≤ 90

/-- The byte update `c += 'a' - 'A'` applied to the upper-case bytes. -/
def strings.lowerByte (c : byte) : byte := if strings.isUpperByte c then c + 32 else c

/-- Function `strings.ToLower`: an ASCII-only string without capitals is returned
as is, an ASCII-only string is folded byte by byte, any other string goes through
`Map(unicode.ToLower, s)`. -/
def strings.ToLower (caseTable : Int → Int) (s : GoString) : GoString :=
  if strings.isASCII s then
    if !s.any strings.isUpperByte then s else s.map strings.lowerByte
  else strings.Map (unicode.ToLower caseTable) s

/-- Scan of `strings.Index`: the first offset at or after `i` where `substr` starts. -/
def strings.Index.go (substr : GoString) : GoString → Nat → Int
  | [], i => if substr = [] then (i : Int) else -1
  | c :: s, i =>
    if substr.isPrefixOf (c :: s) then (i : Int) else strings.Index.go substr s (i + 1)

/-- Function `strings.Index`: the offset of the first instance of `substr` in `s`,
or -1 when there is none. -/
def strings.Index (s substr : GoString) : Int := strings.Index.go substr s 0

/-- Function `strings.Contains`: `Index(s, substr) >= 0`. -/
def strings.Contains (s substr : GoString) : Bool := decide (0 ≤ strings.Index s substr)

/-! ## Data model (lines 16-41 and 57-60 of `main.go`) -/

/-- A Go `float64` as decoded by `json.Unmarshal`, which yields finite values only:
the number `mant * 2 ^ exp`.  The handler carries these values and never inspects
them. -/
structure float64 where
  mant : Int
  exp : Int
  deriving DecidableEq, Repr

/-- The struct `coord`. -/
structure coord where
  Lon : float64
  Lat : float64
  deriving DecidableEq, Repr

/-- The struct `city`.  `Population` is a `uint64`; the handler never computes on it. -/
structure city where
  Id : float64
  Name : GoString
  State : GoString
  Country : GoString
  Coord : coord
  Population : Nat
  deriving DecidableEq, Repr

/-- The struct `timezone`; `C` is the sequence of country codes. -/
structure timezone where
  U : Int
  C : List GoString
  A : GoString
  R : Int
  D : Int
  deriving DecidableEq, Repr

/-- The struct `CountryCode`, the record written for a resolved timezone. -/
structure CountryCode where
  Country : GoString
  Code : GoString
  deriving DecidableEq, Repr

/-- A Go `map[string]V`, as the list of its entries. -/
abbrev GoMap (V : Type) := List (GoString × V)

/-- The map index expression `v, ok := m[key]`: `some v` when `key` is present. -/
def GoMap.get? {V : Type} (m : GoMap V) (key : GoString) : Option V :=
  match m with
  | [] => none
  | (k, v) :: rest => if k = key then some v else GoMap.get? rest key

/-- The map index expression `m[key]` on a `map[string]string`: the zero value `""`
when `key` is absent. -/
def GoMap.index (m : GoMap GoString) (key : GoString) : GoString :=
  match GoMap.get? m key with
  | some v => v
  | none => []

/-- The three package-level datasets `cities`, `timezones`, `countryCodes`. -/
structure Datasets where
  cities : List city
  timezones : GoMap timezone
  countryCodes : GoMap GoString
  deriving DecidableEq, Repr

/-! ## Request and response -/

/-- The type `url.Values` returned by `r.URL.Query()`. -/
abbrev Values := GoMap (List GoString)

/-- Method `Values.Get`: the first value of `key`, or `""` when there is none. -/
def Values.Get (v : Values) (key : GoString) : GoString :=
  match GoMap.get? v key with
  | some (x :: _) => x
  | _ => []

/-- A value handed to `json.NewEncoder(w).Encode`. -/
inductive Body where
  | cityList (matched : List city)
  | countryCode (cc : CountryCode)
  | countryCodes (table : GoMap GoString)
  deriving DecidableEq, Repr

/-- What the handler has done to its `http.ResponseWriter`: the headers set, the
status passed to `WriteHeader` (if any), and the values encoded into the body. -/
structure ResponseWriter where
  header : GoMap GoString
  status : Option Nat
  body : List Body
  deriving DecidableEq, Repr

/-- A fresh response writer. -/
def ResponseWriter.new : ResponseWriter := ⟨[], none, []⟩

/-- The call `w.Header().Set(key, value)`. -/
def ResponseWriter.setHeader (w : ResponseWriter) (key value : GoString) : ResponseWriter :=
  { w with header := (key, value) :: w.header.filter (fun e => decide (e.1 ≠ key)) }

/-- Method `w.WriteHeader(code)`; only the first call takes effect. -/
def ResponseWriter.WriteHeader (w : ResponseWriter) (code : Nat) : ResponseWriter :=
  match w.status with
  | none => { w with status := some code }
  | some _ => w

/-- The call `json.NewEncoder(w).Encode(v)`: the encoding of `v` is written to the
body; a write before any `WriteHeader` sends status 200.  The connection is taken to
accept every write, and every value of the data model is encodable, so `Encode`
returns no error. -/
def ResponseWriter.Encode (w : ResponseWriter) (v : Body) : ResponseWriter :=
  let w1 := w.WriteHeader 200
  { w1 with body := w1.body ++ [v] }

/-- How a call of the handler ends. -/
inductive Outcome where
  | returned (w : ResponseWriter)
  | indexOutOfRange (w : ResponseWriter) (index length : Nat)
  deriving DecidableEq, Repr

/-! ## The handler (lines 85-129 of `main.go`) -/

/-- The loop of lines 91-97: cities are visited in index order and a city whose
lower-cased name contains the lower-cased `str` is appended to `matched`. -/
def searchLoop (caseTable : Int → Int) (str : GoString) : List city → List city → List city
  | [], matched => matched
  | c :: rest, matched =>
    if strings.Contains (strings.ToLower caseTable c.Name) (strings.ToLower caseTable str) then
      searchLoop caseTable str rest (matched ++ [c])
    else
      searchLoop caseTable str rest matched

/-- Lines 90-97: `matched := []city{}` followed by the loop. -/
def search (caseTable : Int → Int) (cities : List city) (str : GoString) : List city :=
  searchLoop caseTable str cities []

/-- Lines 109-127: the timezone resolution, entered with a response writer `w` on
which no status has been written.  `t.C[0]` panics when `t.C` is empty. -/
def resolve (d : Datasets) (w : ResponseWriter) (tz : GoString) : Outcome :=
  match GoMap.get? d.timezones tz with
  | some t =>
    match t.C with
    | [] => .indexOutOfRange w 0 0
    | code :: _ =>
      .returned ((w.WriteHeader 200).Encode
        (.countryCode { Code := code, Country := GoMap.index d.countryCodes code }))
  | none => .returned ((w.WriteHeader 404).Encode (.countryCodes d.countryCodes))

/-- Lines 85-129: the handler of `GET /`, applied to the parsed query string. -/
def handler (caseTable : Int → Int) (d : Datasets) (q : Values) : Outcome :=
  let w := ResponseWriter.new.setHeader (lit "Content-Type") (lit "application/json")
  let str := Values.Get q (lit "query")
  if str ≠ [] then
    let matched := search caseTable d.cities str
    .returned ((w.WriteHeader 200).Encode (.cityList matched))
  else
    let tz := Values.Get q (lit "timezone")
    if tz ≠ [] then resolve d w tz
    else .returned w

/-- The handler's response writer at the point where the call ended. -/
def Outcome.writer : Outcome → ResponseWriter
  | .returned w => w
  | .indexOutOfRange w _ _ => w

/-- The header map after line 86. -/
def jsonHeader : GoMap GoString := [(lit "Content-Type", lit "application/json")]

/-! ## The matching rule in the words of the specification -/

/-- The matching rule of City Search as the specification words it: the case-folded
query is a substring (a contiguous run of bytes) of the case-folded city name. -/
def nameMatches (caseTable : Int → Int) (S : GoString) (c : city) : Bool :=
  decide (strings.ToLower caseTable S <:+: strings.ToLower caseTable c.Name)

/-! ## Concrete data for the examples -/

/-- The lower-case column of the rows of `unicode.CaseRanges` below U+0100: the
capitals U+00C0..U+00D6 and U+00D8..U+00DE lie 32 below their small letters.  Every
other rune is left unchanged.  Used for the concrete examples only. -/
def caseTableLatin1 (r : Int) : Int :=
  if (0xC0 ≤ r ∧ r ≤ 0xD6) ∨ (0xD8 ≤ r ∧ r ≤ 0xDE) then r + 32 else r

/-- A city record with the given name and zeroed remaining fields. -/
def cityNamed (name : GoString) : city :=
  { Id := ⟨0, 0⟩, Name := name, State := [], Country := [],
    Coord := ⟨⟨0, 0⟩, ⟨0, 0⟩⟩, Population := 0 }

/-- City "Springfield". -/
def springfield : city := cityNamed (lit "Springfield")

/-- City "Springfield Gardens". -/
def springfieldGardens : city := cityNamed (lit "Springfield Gardens")

/-- City "Orléans"; the bytes of its name are `4F 72 6C C3 A9 61 6E 73`. -/
def orleans : city := cityNamed (lit "Orléans")

/-- Datasets in which "Europe/London" has the code sequence `["GB"]`. -/
def londonData : Datasets :=
  { cities := [],
    timezones :=
      [(lit "Europe/London", { U := 0, C := [lit "GB"], A := lit "GMT", R := 0, D := 0 })],
    countryCodes := [(lit "GB", lit "United Kingdom")] }

/-- Datasets in which "Etc/Empty" has an empty code sequence. -/
def emptyCodesData : Datasets :=
  { cities := [],
    timezones := [(lit "Etc/Empty", { U := 0, C := [], A := [], R := 0, D := 0 })],
    countryCodes := [(lit "GB", lit "United Kingdom")] }

/-- Datasets in which the code "AQ" of "Antarctica/Troll" has no country name. -/
def unknownCodeData : Datasets :=
  { cities := [],
    timezones :=
      [(lit "Antarctica/Troll", { U := 0, C := [lit "AQ"], A := [], R := 0, D := 0 })],
    countryCodes := [(lit "GB", lit "United Kingdom")] }

/-- Datasets in which the code "AQ" of "Antarctica/Troll" is stored with the empty
string as its country name. -/
def emptyNameData : Datasets :=
  { cities := [],
    timezones :=
      [(lit "Antarctica/Troll", { U := 0, C := [lit "AQ"], A := [], R := 0, D := 0 })],
    countryCodes := [(lit "GB", lit "United Kingdom"), (lit "AQ", lit "")] }

/-- The query string `?timezone=tz`. -/
def timezoneRequest (tz : GoString) : Values := [(lit "timezone", [tz])]

/-! ## `strings.Contains` is the substring relation -/

theorem Index_go_nonneg_iff (substr : GoString) (s : GoString) (i : Nat) :
    0 ≤ strings.Index.go substr s i ↔ substr <:+: s := by
  induction s generalizing i with
  | nil =>
    unfold strings.Index.go
    by_cases h : substr = []
    · simp [h]
    · simp [h]
  | cons c s ih =>
    unfold strings.Index.go
    rw [List.infix_cons_iff]
    by_cases h : substr.isPrefixOf (c :: s) = true
    · rw [if_pos h]
      have hp : substr <+: c :: s := ( List.isPrefixOf_iff_prefix).mp h
      constructor
      · intro _; exact Or.inl hp
      · intro _; exact Int.ofNat_nonneg i
    · rw [if_neg h]
      have hp : ¬ substr <+: c :: s := fun hp => h (( List.isPrefixOf_iff_prefix).mpr hp)
      rw [ih (i + 1)]
      constructor
      · intro hi; exact Or.inr hi
      · intro hi
        rcases hi with hi | hi
        · exact absurd hi hp
        · exact hi

theorem Contains_iff_substring (s substr : GoString) :
    strings.Contains s substr = true ↔ substr <:+: s := by
  unfold strings.Contains strings.Index
  rw [decide_eq_true_iff]
  exact Index_go_nonneg_iff substr s 0

theorem Contains_eq_decide_substring (s substr : GoString) :
    strings.Contains s substr = decide (substr <:+: s) := by
  by_cases h : substr <:+: s
  · rw [(Contains_iff_substring s substr).mpr h, decide_eq_true h]
  · have hc : strings.Contains s substr = false := by
      cases hb : strings.Contains s substr
      · rfl
      · exact absurd ((Contains_iff_substring s substr).mp hb) h
    rw [hc, decide_eq_false h]

theorem ToLower_nil (caseTable : Int → Int) : strings.ToLower caseTable [] = [] := by
  simp [strings.ToLower, strings.isASCII]

/-! ## Case folding of ASCII strings -/

theorem val_add_32 (c : byte) (h : c.val ≤ 90) : (c + 32).val = c.val + 32 := by
  rw [Fin.val_add]
  have h32 : (32 : Fin 256).val = 32 := rfl
  rw [h32]
  exact Nat.mod_eq_of_lt (by omega)

theorem lowerByte_not_upper (c : byte) : strings.isUpperByte (strings.lowerByte c) = false := by
  unfold strings.lowerByte
  by_cases h : strings.isUpperByte c = true
  · rw [if_pos h]
    simp only [strings.isUpperByte, Bool.and_eq_true, decide_eq_true_eq] at h
    simp only [strings.isUpperByte, val_add_32 c h.2, Bool.and_eq_false_iff,
      decide_eq_false_iff_not]
    omega
  · rw [if_neg h]
    simpa using h

theorem lowerByte_ascii (c : byte) (h : c.val < utf8.RuneSelf) :
    (strings.lowerByte c).val < utf8.RuneSelf := by
  unfold strings.lowerByte
  by_cases hu : strings.isUpperByte c = true
  · rw [if_pos hu]
    simp only [strings.isUpperByte, Bool.and_eq_true, decide_eq_true_eq] at hu
    rw [val_add_32 c hu.2]
    unfold utf8.RuneSelf
    omega
  · rw [if_neg hu]
    exact h

theorem lowerByte_of_not_upper (c : byte) (h : strings.isUpperByte c = false) :
    strings.lowerByte c = c := by
  simp [strings.lowerByte, h]

theorem ToLower_of_isASCII (caseTable : Int → Int) (s : GoString)
    (h : strings.isASCII s = true) :
    strings.ToLower caseTable s = s.map strings.lowerByte := by
  unfold strings.ToLower
  rw [if_pos h]
  by_cases hu : s.any strings.isUpperByte = true
  · simp [hu]
  · have hn : s.any strings.isUpperByte = false := by simpa using hu
    simp only [hn, Bool.not_false, if_true]
    have hall : ∀ c ∈ s, strings.lowerByte c = c := by
      intro c hc
      apply lowerByte_of_not_upper
      rw [List.any_eq_false] at hn
      simpa using hn c hc
    calc s = s.map id := (List.map_id s).symm
      _ = s.map strings.lowerByte := by
        apply List.map_congr_left
        intro c hc
        exact (hall c hc).symm

theorem ToLower_fixed_of_lower_ascii (caseTable : Int → Int) (s : GoString)
    (h : ∀ c ∈ s, c.val < utf8.RuneSelf ∧ strings.isUpperByte c = false) :
    strings.ToLower caseTable s = s := by
  have hascii : strings.isASCII s = true := by
    unfold strings.isASCII
    rw [List.all_eq_true]
    intro c hc
    simpa using (h c hc).1
  have hup : s.any strings.isUpperByte = false := by
    rw [List.any_eq_false]
    intro c hc
    simpa using (h c hc).2
  unfold strings.ToLower
  simp [hascii, hup]

theorem ToLower_infix_fixed_of_isASCII (caseTable : Int → Int) (name S : GoString)
    (hname : strings.isASCII name = true)
    (hsub : S <:+: strings.ToLower caseTable name) :
    strings.ToLower caseTable S = S := by
  apply ToLower_fixed_of_lower_ascii
  intro c hc
  rw [ToLower_of_isASCII caseTable name hname] at hsub
  have hmem : c ∈ name.map strings.lowerByte := hsub.subset hc
  rcases List.mem_map.mp hmem with ⟨b, hb, rfl⟩
  unfold strings.isASCII at hname
  rw [List.all_eq_true] at hname
  have hb2 : b.val < utf8.RuneSelf := by simpa using hname b hb
  exact ⟨lowerByte_ascii b hb2, lowerByte_not_upper b⟩

/-! ## Case folding depends on the case table only at the runes of the string -/

theorem Map_go_congr (f g : Int → Int) (s : GoString) (skip : Nat)
    (h : ∀ t, t <:+ s → f (utf8.DecodeRuneInString t).1 = g (utf8.DecodeRuneInString t).1) :
    strings.Map.go f s skip = strings.Map.go g s skip := by
  induction s generalizing skip with
  | nil => simp [strings.Map.go]
  | cons b rest ih =>
    have hrest : ∀ t, t <:+ rest →
        f (utf8.DecodeRuneInString t).1 = g (utf8.DecodeRuneInString t).1 :=
      fun t ht => h t (List.suffix_cons_iff.mpr (Or.inr ht))
    cases skip with
    | succ k => simp only [strings.Map.go]; exact ih k hrest
    | zero =>
      simp only [strings.Map.go]
      rw [h (b :: rest) (List.suffix_refl _), ih _ hrest]

theorem ToLower_congr (f g : Int → Int) (s : GoString)
    (h : ∀ t, t <:+ s → unicode.ToLower f (utf8.DecodeRuneInString t).1
      = unicode.ToLower g (utf8.DecodeRuneInString t).1) :
    strings.ToLower f s = strings.ToLower g s := by
  unfold strings.ToLower strings.Map
  rw [Map_go_congr (unicode.ToLower f) (unicode.ToLower g) s 0 h]

theorem unicode_ToLower_congr (f g : Int → Int) (r : Int)
    (h : r ≤ 0x7F ∨ f r = g r) : unicode.ToLower f r = unicode.ToLower g r := by
  unfold unicode.ToLower unicode.MaxASCII
  rcases h with h | h
  · rw [if_pos h, if_pos h]
  · by_cases hr : r ≤ 0x7F
    · rw [if_pos hr, if_pos hr]
    · rw [if_neg hr, if_neg hr, h]

/-! ## The search loop -/

theorem searchLoop_eq_append_filter (caseTable : Int → Int) (str : GoString)
    (cities matched : List city) :
    searchLoop caseTable str cities matched =
      matched ++ cities.filter (nameMatches caseTable str) := by
  induction cities generalizing matched with
  | nil => simp [searchLoop]
  | cons c rest ih =>
    unfold searchLoop
    by_cases h : nameMatches caseTable str c = true
    · have h2 : strings.Contains (strings.ToLower caseTable c.Name)
          (strings.ToLower caseTable str) = true := by
        rw [Contains_eq_decide_substring]; exact h
      rw [if_pos h2, ih, List.filter_cons_of_pos h]
      simp
    · have h2 : ¬ strings.Contains (strings.ToLower caseTable c.Name)
          (strings.ToLower caseTable str) = true := by
        rw [Contains_eq_decide_substring]; exact h
      rw [if_neg h2, ih, List.filter_cons_of_neg h]

theorem search_eq_filter_nameMatches (caseTable : Int → Int) (cities : List city)
    (str : GoString) :
    search caseTable cities str = cities.filter (nameMatches caseTable str) := by
  unfold search
  rw [searchLoop_eq_append_filter]
  rfl

/-! ## The response writer and the branches of the handler -/

theorem setHeader_new :
    ResponseWriter.new.setHeader (lit "Content-Type") (lit "application/json")
      = ⟨jsonHeader, none, []⟩ := by
  rfl

theorem WriteHeader_body (w : ResponseWriter) (code : Nat) :
    (w.WriteHeader code).body = w.body := by
  unfold ResponseWriter.WriteHeader
  cases w.status <;> rfl

theorem Encode_body (w : ResponseWriter) (v : Body) : (w.Encode v).body = w.body ++ [v] := by
  unfold ResponseWriter.Encode
  simp [WriteHeader_body]

theorem index_of_get? (m : GoMap GoString) (key v : GoString)
    (h : GoMap.get? m key = some v) : GoMap.index m key = v := by
  unfold GoMap.index
  rw [h]

theorem index_of_absent (m : GoMap GoString) (key : GoString)
    (h : GoMap.get? m key = none) : GoMap.index m key = [] := by
  unfold GoMap.index
  rw [h]

theorem resolve_found (d : Datasets) (w : ResponseWriter) (T : GoString) (t : timezone)
    (code : GoString) (rest : List GoString) (hw : w.status = none)
    (hkey : GoMap.get? d.timezones T = some t) (hC : t.C = code :: rest) :
    resolve d w T = .returned
      { header := w.header, status := some 200,
        body := w.body ++ [.countryCode
          { Code := code, Country := GoMap.index d.countryCodes code }] } := by
  unfold resolve
  rw [hkey]
  simp only [hC]
  simp [ResponseWriter.Encode, ResponseWriter.WriteHeader, hw]

theorem resolve_absent (d : Datasets) (w : ResponseWriter) (T : GoString)
    (hw : w.status = none) (hkey : GoMap.get? d.timezones T = none) :
    resolve d w T = .returned
      { header := w.header, status := some 404,
        body := w.body ++ [.countryCodes d.countryCodes] } := by
  unfold resolve
  rw [hkey]
  simp [ResponseWriter.Encode, ResponseWriter.WriteHeader, hw]

theorem resolve_empty_codes (d : Datasets) (w : ResponseWriter) (T : GoString) (t : timezone)
    (hkey : GoMap.get? d.timezones T = some t) (hC : t.C = []) :
    resolve d w T = .indexOutOfRange w 0 0 := by
  unfold resolve
  rw [hkey]
  simp only [hC]

theorem resolve_no_cityList (d : Datasets) (w : ResponseWriter) (T : GoString)
    (hw : ∀ m, Body.cityList m ∉ w.body) :
    ∀ m, Body.cityList m ∉ (resolve d w T).writer.body := by
  intro m
  unfold resolve
  split
  · split
    · exact hw m
    · simp only [Outcome.writer, Encode_body, WriteHeader_body]
      intro hmem
      rcases List.mem_append.mp hmem with h | h
      · exact hw m h
      · simp at h
  · simp only [Outcome.writer, Encode_body, WriteHeader_body]
    intro hmem
    rcases List.mem_append.mp hmem with h | h
    · exact hw m h
    · simp at h

theorem handler_query_branch (caseTable : Int → Int) (d : Datasets) (q : Values)
    (hq : Values.Get q (lit "query") ≠ []) :
    handler caseTable d q = .returned
      { header := jsonHeader, status := some 200,
        body := [.cityList (search caseTable d.cities (Values.Get q (lit "query")))] } := by
  unfold handler
  rw [setHeader_new]
  simp only [ne_eq, hq, not_false_eq_true, if_true]
  rfl

theorem handler_timezone_branch (caseTable : Int → Int) (d : Datasets) (q : Values)
    (hq : Values.Get q (lit "query") = []) (hne : Values.Get q (lit "timezone") ≠ []) :
    handler caseTable d q
      = resolve d ⟨jsonHeader, none, []⟩ (Values.Get q (lit "timezone")) := by
  unfold handler
  rw [setHeader_new]
  simp only [hq, ne_eq, not_true_eq_false, if_false]
  rw [if_pos hne]

theorem handler_neither_branch (caseTable : Int → Int) (d : Datasets) (q : Values)
    (hq : Values.Get q (lit "query") = []) (ht : Values.Get q (lit "timezone") = []) :
    handler caseTable d q = .returned ⟨jsonHeader, none, []⟩ := by
  unfold handler
  rw [setHeader_new]
  simp [hq, ht]

/-! ## City Search -/

/-- For every case table that leaves U+00E9 and U+FFFD unchanged, as the table of
package `unicode` does, the query consisting of the single byte `A9` is a substring of
the folded name "orléans" and yet the search does not return the city: folding the
query replaces the stray continuation byte by the encoding of U+FFFD. -/
theorem search_split_rune_any_table (caseTable : Int → Int)
    (h1 : caseTable 0xE9 = 0xE9) (h2 : caseTable 0xFFFD = 0xFFFD) :
    ([0xA9] : GoString) <:+: strings.ToLower caseTable orleans.Name ∧
    strings.ToLower caseTable [0xA9] = [0xEF, 0xBF, 0xBD] ∧
    orleans ∉ search caseTable [orleans] [0xA9] := by
  have hrunes : ∀ t ∈ orleans.Name.tails ++ ([0xA9] : GoString).tails,
      (utf8.DecodeRuneInString t).1 ≤ 0x7F ∨ (utf8.DecodeRuneInString t).1 = 0xE9 ∨
        (utf8.DecodeRuneInString t).1 = 0xFFFD := by
    decide
  have hagree : ∀ t, t ∈ orleans.Name.tails ++ ([0xA9] : GoString).tails →
      unicode.ToLower caseTable (utf8.DecodeRuneInString t).1
        = unicode.ToLower caseTableLatin1 (utf8.DecodeRuneInString t).1 := by
    intro t ht
    apply unicode_ToLower_congr
    rcases hrunes t ht with h | h | h
    · exact Or.inl h
    · right; rw [h, h1]; decide
    · right; rw [h, h2]; decide
  have e1 : strings.ToLower caseTable orleans.Name
      = strings.ToLower caseTableLatin1 orleans.Name := by
    apply ToLower_congr
    intro t ht
    exact hagree t (List.mem_append_left _ ((List.mem_tails _ _).mpr ht))
  have e2 : strings.ToLower caseTable [0xA9] = strings.ToLower caseTableLatin1 [0xA9] := by
    apply ToLower_congr
    intro t ht
    exact hagree t (List.mem_append_right _ ((List.mem_tails _ _).mpr ht))
  refine ⟨?_, ?_, ?_⟩
  · rw [e1, ← Contains_iff_substring]
    decide
  · rw [e2]
    decide
  · unfold search searchLoop searchLoop
    rw [e1, e2]
    decide

/-- C1, as amended.  For every city list, every city `c` in it and every non-empty
string `S` that is a substring of the case-folded name of `c`, if case folding leaves
`S` unchanged, or if the name of `c` is ASCII-only (then folding leaves every such
substring unchanged), the result of the search loop run with query `S` contains `c`. -/
theorem search_complete_of_fixed (caseTable : Int → Int) (cities : List city) (c : city)
    (S : GoString) (hc : c ∈ cities) (_hS : S ≠ [])
    (hsub : S <:+: strings.ToLower caseTable c.Name)
    (hfix : strings.ToLower caseTable S = S ∨ strings.isASCII c.Name = true) :
    c ∈ search caseTable cities S := by
  have hfixed : strings.ToLower caseTable S = S := by
    rcases hfix with h | h
    · exact h
    · exact ToLower_infix_fixed_of_isASCII caseTable c.Name S h hsub
  rw [search_eq_filter_nameMatches, List.mem_filter]
  refine ⟨hc, ?_⟩
  unfold nameMatches
  rw [hfixed]
  exact decide_eq_true hsub

/-- C1, as amended, at a concrete input: the query "léa" is a substring of the folded
name "orléans", folding leaves it unchanged, and the search returns the city. -/
theorem search_complete_of_fixed_witness :
    orleans ∈ [springfield, orleans] ∧ lit "léa" ≠ [] ∧
    lit "léa" <:+: strings.ToLower caseTableLatin1 orleans.Name ∧
    strings.ToLower caseTableLatin1 (lit "léa") = lit "léa" ∧
    orleans ∈ search caseTableLatin1 [springfield, orleans] (lit "léa") :=
  ⟨by decide, by decide, (Contains_iff_substring _ _).mp (by decide), by decide,
    search_complete_of_fixed caseTableLatin1 [springfield, orleans] orleans (lit "léa")
      (by decide) (by decide) ((Contains_iff_substring _ _).mp (by decide)) (Or.inl (by decide))⟩

/-- C1 fails as stated.  The city list holds "Orléans", whose folded name has the
bytes `6F 72 6C C3 A9 61 6E 73`; the query is the single byte `A9` (the request
`/?query=%A9`), a non-empty substring of that folded name; the search returns no
city. -/
theorem search_misses_split_rune :
    orleans ∈ [orleans] ∧ ([0xA9] : GoString) ≠ [] ∧
    ([0xA9] : GoString) <:+: strings.ToLower caseTableLatin1 orleans.Name ∧
    search caseTableLatin1 [orleans] [0xA9] = [] ∧
    orleans ∉ search caseTableLatin1 [orleans] [0xA9] :=
  ⟨by decide, by decide, (Contains_iff_substring _ _).mp (by decide), by decide, by decide⟩

/-- C2.  For every city list and every query `S` (in particular every non-empty one),
the sequence returned by the search loop equals the city list filtered, order and
multiplicity preserved, by the rule "the lower-cased name contains the lower-cased
`S`"; it is a sublist of the city list and every city in it matches. -/
theorem search_eq_filter (caseTable : Int → Int) (cities : List city) (S : GoString) :
    search caseTable cities S = cities.filter (nameMatches caseTable S) ∧
    (search caseTable cities S).Sublist cities ∧
    ∀ c ∈ search caseTable cities S,
      strings.ToLower caseTable S <:+: strings.ToLower caseTable c.Name := by
  rw [search_eq_filter_nameMatches]
  refine ⟨rfl, List.filter_sublist cities, ?_⟩
  intro c hc
  exact of_decide_eq_true (List.mem_filter.mp hc).2

/-- C7.  For every city list and every two non-empty queries whose lower-cased forms
are equal, the search loop returns the same sequence for both. -/
theorem search_case_insensitive (caseTable : Int → Int) (cities : List city)
    (S1 S2 : GoString) (_h1 : S1 ≠ []) (_h2 : S2 ≠ [])
    (heq : strings.ToLower caseTable S1 = strings.ToLower caseTable S2) :
    search caseTable cities S1 = search caseTable cities S2 := by
  unfold search
  suffices h : ∀ matched, searchLoop caseTable S1 cities matched
      = searchLoop caseTable S2 cities matched from h []
  induction cities with
  | nil => intro matched; rfl
  | cons c rest ih =>
    intro matched
    unfold searchLoop
    rw [heq, ih, ih]

/-- C7 at a concrete input: "spring" and "SPRING" fold to the same string and return
the same two cities, in load order. -/
theorem search_case_insensitive_witness :
    lit "spring" ≠ [] ∧ lit "SPRING" ≠ [] ∧
    strings.ToLower caseTableLatin1 (lit "spring")
      = strings.ToLower caseTableLatin1 (lit "SPRING") ∧
    search caseTableLatin1 [springfield, orleans, springfieldGardens] (lit "spring")
      = search caseTableLatin1 [springfield, orleans, springfieldGardens] (lit "SPRING") ∧
    search caseTableLatin1 [springfield, orleans, springfieldGardens] (lit "SPRING")
      = [springfield, springfieldGardens] :=
  ⟨by decide, by decide, by decide,
    search_case_insensitive caseTableLatin1 [springfield, orleans, springfieldGardens]
      (lit "spring") (lit "SPRING") (by decide) (by decide) (by decide),
    by decide⟩

/-- C8.  For every city list, the matching loop run with the empty query returns the
whole city list: every city once, in load order. -/
theorem search_empty_query (caseTable : Int → Int) (cities : List city) :
    search caseTable cities [] = cities := by
  rw [search_eq_filter_nameMatches]
  apply List.filter_eq_self.mpr
  intro c _
  unfold nameMatches
  rw [ToLower_nil]
  exact decide_eq_true ( List.nil_infix)

/-! ## Timezone resolution -/

/-- C3.  For every non-empty timezone identifier `T` that is a key of the timezones
map and whose code sequence is `code :: rest`, a request whose `query` parameter is
empty and whose `timezone` parameter is `T` is answered with status 200 and the
record whose code is `code` and whose country is `countryCodes[code]`, that is the
name stored for `code` whenever there is one. -/
theorem handler_timezone_found (caseTable : Int → Int) (d : Datasets) (q : Values)
    (T : GoString) (t : timezone) (code : GoString) (rest : List GoString)
    (hq : Values.Get q (lit "query") = []) (hT : Values.Get q (lit "timezone") = T)
    (hne : T ≠ []) (hkey : GoMap.get? d.timezones T = some t) (hC : t.C = code :: rest) :
    handler caseTable d q = .returned
      { header := jsonHeader, status := some 200,
        body := [.countryCode { Code := code, Country := GoMap.index d.countryCodes code }] } ∧
    ∀ name, GoMap.get? d.countryCodes code = some name →
      GoMap.index d.countryCodes code = name := by
  constructor
  · rw [handler_timezone_branch caseTable d q hq (by rw [hT]; exact hne), hT,
      resolve_found d _ T t code rest rfl hkey hC]
    rfl
  · intro name h
    exact index_of_get? _ _ _ h

/-- C3 at the scenario of the specification: "Europe/London" has the codes `["GB"]`,
"GB" is "United Kingdom", and the request `/?timezone=Europe/London` is answered with
status 200 and the record of code "GB" and country "United Kingdom". -/
theorem handler_timezone_found_witness :
    Values.Get (timezoneRequest (lit "Europe/London")) (lit "query") = [] ∧
    Values.Get (timezoneRequest (lit "Europe/London")) (lit "timezone") = lit "Europe/London" ∧
    lit "Europe/London" ≠ [] ∧
    GoMap.get? londonData.timezones (lit "Europe/London")
      = some { U := 0, C := [lit "GB"], A := lit "GMT", R := 0, D := 0 } ∧
    handler caseTableLatin1 londonData (timezoneRequest (lit "Europe/London")) = .returned
      { header := jsonHeader, status := some 200,
        body := [.countryCode { Code := lit "GB", Country := lit "United Kingdom" }] } := by
  have h := handler_timezone_found caseTableLatin1 londonData
    (timezoneRequest (lit "Europe/London")) (lit "Europe/London")
    { U := 0, C := [lit "GB"], A := lit "GMT", R := 0, D := 0 } (lit "GB") []
    (by decide) (by decide) (by decide) (by decide) rfl
  refine ⟨by decide, by decide, by decide, by decide, ?_⟩
  rw [h.1, h.2 (lit "United Kingdom") (by decide)]

/-- C4.  For every timezone identifier `T` that is not a key of the timezones map,
the resolution (lines 109-127) writes status 404 and the complete countryCodes map,
the very value held by the dataset store.  The handler enters the resolution for
every non-empty `T` of a request whose `query` parameter is empty, and then answers
with exactly that. -/
theorem resolve_not_found (d : Datasets) (w : ResponseWriter) (T : GoString)
    (hw : w.status = none) (hkey : GoMap.get? d.timezones T = none) :
    resolve d w T = .returned
      { header := w.header, status := some 404,
        body := w.body ++ [.countryCodes d.countryCodes] } ∧
    ∀ (caseTable : Int → Int) (q : Values), Values.Get q (lit "query") = [] →
      Values.Get q (lit "timezone") = T → T ≠ [] →
      handler caseTable d q = .returned
        { header := jsonHeader, status := some 404,
          body := [.countryCodes d.countryCodes] } := by
  refine ⟨resolve_absent d w T hw hkey, ?_⟩
  intro caseTable q hq hT hne
  rw [handler_timezone_branch caseTable d q hq (by rw [hT]; exact hne), hT,
    resolve_absent d _ T rfl hkey]
  rfl

/-- C4 at the scenario of the specification: "Nowhere/Place" is not a key, and the
request `/?timezone=Nowhere/Place` is answered with status 404 and the whole table. -/
theorem resolve_not_found_witness :
    (⟨jsonHeader, none, []⟩ : ResponseWriter).status = none ∧
    GoMap.get? londonData.timezones (lit "Nowhere/Place") = none ∧
    resolve londonData ⟨jsonHeader, none, []⟩ (lit "Nowhere/Place") = .returned
      { header := jsonHeader, status := some 404,
        body := [.countryCodes [(lit "GB", lit "United Kingdom")]] } ∧
    handler caseTableLatin1 londonData (timezoneRequest (lit "Nowhere/Place")) = .returned
      { header := jsonHeader, status := some 404,
        body := [.countryCodes [(lit "GB", lit "United Kingdom")]] } :=
  ⟨rfl, by decide,
    (resolve_not_found londonData ⟨jsonHeader, none, []⟩ (lit "Nowhere/Place") rfl
      (by decide)).1,
    (resolve_not_found londonData ⟨jsonHeader, none, []⟩ (lit "Nowhere/Place") rfl
      (by decide)).2 caseTableLatin1 (timezoneRequest (lit "Nowhere/Place"))
      (by decide) (by decide) (by decide)⟩

/-- C5 does not hold of the code.  "Etc/Empty" is a key of the timezones map with an
empty code sequence; on the request `/?timezone=Etc/Empty` the handler evaluates
`t.C[0]` and panics with index 0 out of range for length 0, before any status or
body is written, where the claim requires the not-found answer. -/
theorem handler_empty_codes_panics :
    GoMap.get? emptyCodesData.timezones (lit "Etc/Empty")
      = some { U := 0, C := [], A := [], R := 0, D := 0 } ∧
    handler caseTableLatin1 emptyCodesData (timezoneRequest (lit "Etc/Empty"))
      = .indexOutOfRange ⟨jsonHeader, none, []⟩ 0 0 ∧
    handler caseTableLatin1 emptyCodesData (timezoneRequest (lit "Etc/Empty"))
      ≠ .returned
          { header := jsonHeader, status := some 404,
            body := [.countryCodes emptyCodesData.countryCodes] } := by
  decide

/-- C6, as amended.  For every timezone identifier `T` that is a key of the timezones
map with code sequence `code :: rest` where `code` is not a key of the countryCodes
map, the resolution returns normally with status 200 and a record holding `code` and,
as its country, the empty string (the value of `countryCodes[code]` on a missing key):
the field is present, not null, and nothing fails.  The handler gives this answer for
every such non-empty `T` when the `query` parameter is empty.  A code that does have
an entry gets the stored name in the same field, so a code stored with the empty name
gets the same answer. -/
theorem resolve_unknown_country (d : Datasets) (w : ResponseWriter) (T : GoString)
    (t : timezone) (code : GoString) (rest : List GoString) (hw : w.status = none)
    (hkey : GoMap.get? d.timezones T = some t) (hC : t.C = code :: rest)
    (hcode : GoMap.get? d.countryCodes code = none) :
    resolve d w T = .returned
      { header := w.header, status := some 200,
        body := w.body ++ [.countryCode { Code := code, Country := lit "" }] } ∧
    (∀ (caseTable : Int → Int) (q : Values), Values.Get q (lit "query") = [] →
      Values.Get q (lit "timezone") = T → T ≠ [] →
      handler caseTable d q = .returned
        { header := jsonHeader, status := some 200,
          body := [.countryCode { Code := code, Country := lit "" }] }) ∧
    ∀ (d2 : Datasets) (name : GoString), GoMap.get? d2.timezones T = some t →
      GoMap.get? d2.countryCodes code = some name →
      resolve d2 w T = .returned
        { header := w.header, status := some 200,
          body := w.body ++ [.countryCode { Code := code, Country := name }] } := by
  have hres : ∀ w : ResponseWriter, w.status = none → resolve d w T = .returned
      { header := w.header, status := some 200,
        body := w.body ++ [.countryCode { Code := code, Country := lit "" }] } := by
    intro w hw
    rw [resolve_found d w T t code rest hw hkey hC, index_of_absent _ _ hcode]
    rfl
  refine ⟨hres w hw, ?_, ?_⟩
  · intro caseTable q hq hT hne
    rw [handler_timezone_branch caseTable d q hq (by rw [hT]; exact hne), hT, hres _ rfl]
    rfl
  · intro d2 name hkey2 hname
    rw [resolve_found d2 w T t code rest hw hkey2 hC, index_of_get? _ _ _ hname]

/-- C6, as amended, at a concrete input: "Antarctica/Troll" has the codes `["AQ"]`,
"AQ" has no entry in the countryCodes map, and the answer is status 200 with code
"AQ" and the empty country. -/
theorem resolve_unknown_country_witness :
    (⟨jsonHeader, none, []⟩ : ResponseWriter).status = none ∧
    GoMap.get? unknownCodeData.timezones (lit "Antarctica/Troll")
      = some { U := 0, C := [lit "AQ"], A := [], R := 0, D := 0 } ∧
    GoMap.get? unknownCodeData.countryCodes (lit "AQ") = none ∧
    handler caseTableLatin1 unknownCodeData (timezoneRequest (lit "Antarctica/Troll"))
      = .returned
          { header := jsonHeader, status := some 200,
            body := [.countryCode { Code := lit "AQ", Country := lit "" }] } :=
  ⟨rfl, by decide, by decide,
    (resolve_unknown_country unknownCodeData ⟨jsonHeader, none, []⟩ (lit "Antarctica/Troll")
      { U := 0, C := [lit "AQ"], A := [], R := 0, D := 0 } (lit "AQ") [] rfl
      (by decide) rfl (by decide)).2.1 caseTableLatin1
      (timezoneRequest (lit "Antarctica/Troll")) (by decide) (by decide) (by decide)⟩

/-- C6 fails as stated.  In one dataset the code "AQ" of "Antarctica/Troll" has no
entry in the countryCodes map, in the other it is stored with the empty name; the
request `/?timezone=Antarctica/Troll` gets the same answer from both, status 200 with
code "AQ" and country "", so the country field does not mark the unknown code. -/
theorem resolve_unknown_country_unmarked :
    GoMap.get? unknownCodeData.timezones (lit "Antarctica/Troll")
      = some { U := 0, C := [lit "AQ"], A := [], R := 0, D := 0 } ∧
    GoMap.get? unknownCodeData.countryCodes (lit "AQ") = none ∧
    GoMap.get? emptyNameData.timezones (lit "Antarctica/Troll")
      = some { U := 0, C := [lit "AQ"], A := [], R := 0, D := 0 } ∧
    GoMap.get? emptyNameData.countryCodes (lit "AQ") = some (lit "") ∧
    handler caseTableLatin1 unknownCodeData (timezoneRequest (lit "Antarctica/Troll"))
      = .returned
          { header := jsonHeader, status := some 200,
            body := [.countryCode { Code := lit "AQ", Country := lit "" }] } ∧
    handler caseTableLatin1 emptyNameData (timezoneRequest (lit "Antarctica/Troll"))
      = handler caseTableLatin1 unknownCodeData (timezoneRequest (lit "Antarctica/Troll")) := by
  decide

/-! ## Dispatch -/

/-- C9.  For every request in which both the `query` and the `timezone` parameter are
empty or absent (`Get` returns the empty string), and whatever the datasets contain,
the handler returns having set only the Content-Type header: no status code and no
body are written. -/
theorem handler_no_params (caseTable : Int → Int) (d : Datasets) (q : Values)
    (hq : Values.Get q (lit "query") = []) (ht : Values.Get q (lit "timezone") = []) :
    handler caseTable d q = .returned { header := jsonHeader, status := none, body := [] } :=
  handler_neither_branch caseTable d q hq ht

/-- C9 at concrete inputs: a request with an empty `query` value and no `timezone`
parameter. -/
theorem handler_no_params_witness :
    Values.Get [(lit "query", [lit ""])] (lit "query") = [] ∧
    Values.Get [(lit "query", [lit ""])] (lit "timezone") = [] ∧
    handler caseTableLatin1 londonData [(lit "query", [lit ""])]
      = .returned { header := jsonHeader, status := none, body := [] } :=
  ⟨by decide, by decide,
    handler_no_params caseTableLatin1 londonData [(lit "query", [lit ""])]
      (by decide) (by decide)⟩

/-- C10.  For every request: a city list is written if and only if the `query`
parameter is non-empty; when it is non-empty the response is status 200 with the
search result, the same for every value of the `timezone` parameter and every content
of the timezones and countryCodes maps; when it is empty the response is the same for
every city list and every other request with an empty `query` and the same `timezone`
parameter. -/
theorem handler_dispatch (caseTable : Int → Int) (d : Datasets) (q : Values) :
    ((∃ m, Body.cityList m ∈ (handler caseTable d q).writer.body)
        ↔ Values.Get q (lit "query") ≠ []) ∧
    (Values.Get q (lit "query") ≠ [] →
      handler caseTable d q = .returned
        { header := jsonHeader, status := some 200,
          body := [.cityList (search caseTable d.cities (Values.Get q (lit "query")))] } ∧
      ∀ (d2 : Datasets) (q2 : Values), d2.cities = d.cities →
        Values.Get q2 (lit "query") = Values.Get q (lit "query") →
        handler caseTable d2 q2 = handler caseTable d q) ∧
    (Values.Get q (lit "query") = [] →
      ∀ (caseTable2 : Int → Int) (d2 : Datasets) (q2 : Values),
        d2.timezones = d.timezones → d2.countryCodes = d.countryCodes →
        Values.Get q2 (lit "query") = [] →
        Values.Get q2 (lit "timezone") = Values.Get q (lit "timezone") →
        handler caseTable2 d2 q2 = handler caseTable d q) := by
  have hempty : Values.Get q (lit "query") = [] →
      ∀ m, Body.cityList m ∉ (handler caseTable d q).writer.body := by
    intro hq m
    by_cases ht : Values.Get q (lit "timezone") = []
    · rw [handler_neither_branch caseTable d q hq ht]
      simp [Outcome.writer]
    · rw [handler_timezone_branch caseTable d q hq ht]
      exact resolve_no_cityList d _ _ (by simp) m
  refine ⟨⟨?_, ?_⟩, ?_, ?_⟩
  · rintro ⟨m, hm⟩ hq
    exact hempty hq m hm
  · intro hq
    rw [handler_query_branch caseTable d q hq]
    exact ⟨search caseTable d.cities (Values.Get q (lit "query")), by simp [Outcome.writer]⟩
  · intro hq
    refine ⟨handler_query_branch caseTable d q hq, ?_⟩
    intro d2 q2 hd hq2
    rw [handler_query_branch caseTable d q hq,
      handler_query_branch caseTable d2 q2 (by rw [hq2]; exact hq), hd, hq2]
  · intro hq caseTable2 d2 q2 htz hcc hq2 ht2
    by_cases ht : Values.Get q (lit "timezone") = []
    · rw [handler_neither_branch caseTable d q hq ht,
        handler_neither_branch caseTable2 d2 q2 hq2 (by rw [ht2]; exact ht)]
    · rw [handler_timezone_branch caseTable d q hq ht,
        handler_timezone_branch caseTable2 d2 q2 hq2 (by rw [ht2]; exact ht), ht2]
      unfold resolve
      rw [htz, hcc]

end GoCountries
